import Mathlib

/-!
Verification development for the patristics-builder citation engine.

The definitions below are a shallow embedding of the Python sources
`src/bible_data.py`, `src/parser.py` and `src/parse_thml.py`.  Text is
modelled as `List Char`; Python integers as `Int`; fallible operations
return `Option`.  Each definition carries a comment naming the source
function it embeds.
-/

namespace Patristics

/-- ASCII model of Python str whitespace / regex `\s`:
space, tab, newline, carriage return, vertical tab, form feed. -/
def isPySpace (c : Char) : Bool :=
  c = ' ' || c = '\t' || c = '\n' || c = '\r' || c.toNat = 11 || c.toNat = 12

/-- Python `str.strip()` (ASCII whitespace model). -/
def pyStrip (l : List Char) : List Char :=
  ((l.dropWhile isPySpace).reverse.dropWhile isPySpace).reverse

/-- Python `str.rstrip()` (ASCII whitespace model). -/
def pyRStrip (l : List Char) : List Char :=
  (l.reverse.dropWhile isPySpace).reverse

/-- Python `str.rstrip(chars)` for an explicit character set. -/
def rstripSet (p : Char → Bool) (l : List Char) : List Char :=
  (l.reverse.dropWhile p).reverse

/-- Python `str.split(sep)` for a single-character separator:
splits on every occurrence, keeping empty pieces; `"".split(sep) = [""]`. -/
def pySplitChar (sep : Char) : List Char → List (List Char)
  | [] => [[]]
  | c :: rest =>
      let r := pySplitChar sep rest
      if c = sep then [] :: r
      else
        match r with
        | h :: t => (c :: h) :: t
        | [] => [[c]]

/-- Python `str.lower()` (ASCII model). -/
def lowerList (l : List Char) : List Char := l.map Char.toLower

/-- Python `str.upper()` (ASCII model). -/
def upperList (l : List Char) : List Char := l.map Char.toUpper

/-- Regex `\w` word character (ASCII model): letter, digit or underscore. -/
def isWordChar (c : Char) : Bool := c.isAlphanum || c = '_'

/-- Digit value of an ASCII digit character. -/
def charVal (c : Char) : Nat := c.toNat - 48

/-- Decimal value of a digit run. -/
def digitsVal (l : List Char) : Nat := l.foldl (fun acc c => acc * 10 + charVal c) 0

/-- Body of the ASCII model of Python `int()`: digits with optional single
underscores between digits (`"1_0"` parses, `"_1"`, `"1_"`, `"1__0"` fail). -/
def pyDigits (acc : Nat) : List Char → Option Nat
  | [] => some acc
  | c :: rest =>
      if c.isDigit then pyDigits (acc * 10 + charVal c) rest
      else if c = '_' then
        match rest with
        | d :: rest2 => if d.isDigit then pyDigits (acc * 10 + charVal d) rest2 else none
        | [] => none
      else none

/-- ASCII model of Python `int(str)`: surrounding whitespace, optional sign,
then a nonempty digit run (with optional underscore grouping). -/
def pyInt (l : List Char) : Option Int :=
  match pyStrip l with
  | '+' :: (d :: rest) => if d.isDigit then (pyDigits (charVal d) rest).map Int.ofNat else none
  | '-' :: (d :: rest) => if d.isDigit then (pyDigits (charVal d) rest).map (fun n => -(n : Int)) else none
  | d :: rest => if d.isDigit then (pyDigits (charVal d) rest).map Int.ofNat else none
  | [] => none

/-! ## Roman numerals (`bible_data.roman_to_int`, `bible_data.is_roman`) -/

/-- Symbol table of `roman_to_int` (`vals` in the source). -/
def romanVal (c : Char) : Option Int :=
  if c = 'I' then some 1
  else if c = 'V' then some 5
  else if c = 'X' then some 10
  else if c = 'L' then some 50
  else if c = 'C' then some 100
  else if c = 'D' then some 500
  else if c = 'M' then some 1000
  else none

/-- Right-to-left accumulation loop of `roman_to_int`:
state is (total, prev); subtract a symbol smaller than the previous one. -/
def romanFold (l : List Char) : Int :=
  (l.foldl
    (fun st c =>
      let v := (romanVal c).getD 0
      if v < st.2 then (st.1 - v, v) else (st.1 + v, v))
    ((0 : Int), (0 : Int))).1

/-- Embeds `bible_data.roman_to_int`: upper-case, strip, reject empty or
any symbol outside the table, then right-to-left accumulate. -/
def romanToInt (s : List Char) : Option Int :=
  let t := pyStrip (upperList s)
  if t = [] || !(t.all fun c => (romanVal c).isSome) then none
  else some (romanFold t.reverse)

/-- Embeds `bible_data.is_roman`. -/
def isRoman (s : List Char) : Bool := (romanToInt s).isSome

/-! ## Verse-field parsing (`parser._parse_verse_field`) -/

/-- Maximal digit runs of a string, in order (regex `findall(r"\d+")`). -/
def digitRunsGo : List Char → List Char → List (List Char)
  | [], acc => if acc = [] then [] else [acc.reverse]
  | c :: rest, acc =>
      if c.isDigit then digitRunsGo rest (c :: acc)
      else if acc = [] then digitRunsGo rest []
      else acc.reverse :: digitRunsGo rest []

/-- All digit runs of a string as integers (`_VERSE_LIST_RE.findall` + `int`). -/
def digitRunsInt (l : List Char) : List Int :=
  (digitRunsGo l []).map (fun r => (digitsVal r : Int))

/-- Embeds `parser._parse_verse_field`: `(first run, last run if distinct)`,
`(none, none)` when the field is absent, empty, or has no digit run. -/
def parseVerseField : Option (List Char) → Option Int × Option Int
  | none => (none, none)
  | some vs =>
      if vs = [] then (none, none)
      else
        match digitRunsInt vs with
        | [] => (none, none)
        | n :: rest =>
            let last := (n :: rest).getLastD n
            (some n, if last ≠ n then some last else none)

/-! ## Book registry (`bible_data.BOOKS`) -/

/-- One entry of `bible_data.BOOKS`. -/
structure Book where
  name : String
  slug : String
  ord : Nat
  chapters : Nat
  abbrevs : List String
deriving DecidableEq, Repr

set_option maxHeartbeats 1000000 in
/-- Embeds the `bible_data.BOOKS` table (Protestant canon + Deuterocanon). -/
def books : List Book := [
  ⟨"Genesis", "genesis", 1, 50, ["gen", "gn"]⟩,
  ⟨"Exodus", "exodus", 2, 40, ["exod", "exo", "exod"]⟩,
  ⟨"Leviticus", "leviticus", 3, 27, ["lev", "lv"]⟩,
  ⟨"Numbers", "numbers", 4, 36, ["num", "numb"]⟩,
  ⟨"Deuteronomy", "deuteronomy", 5, 34, ["deut", "deu", "dt"]⟩,
  ⟨"Joshua", "joshua", 6, 24, ["josh", "jos"]⟩,
  ⟨"Judges", "judges", 7, 21, ["judg", "jdg", "jdgs"]⟩,
  ⟨"Ruth", "ruth", 8, 4, ["rth"]⟩,
  ⟨"1 Samuel", "1-samuel", 9, 31, ["1 sam", "1sam", "1 sa", "1sa", "i sam", "i sa"]⟩,
  ⟨"2 Samuel", "2-samuel", 10, 24, ["2 sam", "2sam", "2 sa", "2sa", "ii sam", "ii sa"]⟩,
  ⟨"1 Kings", "1-kings", 11, 22, ["1 kgs", "1kgs", "1 ki", "1ki", "i kgs", "i ki"]⟩,
  ⟨"2 Kings", "2-kings", 12, 25, ["2 kgs", "2kgs", "2 ki", "2ki", "ii kgs", "ii ki"]⟩,
  ⟨"1 Chronicles", "1-chronicles", 13, 29, ["1 chr", "1chr", "1 chron", "1chron", "i chr", "i chron"]⟩,
  ⟨"2 Chronicles", "2-chronicles", 14, 36, ["2 chr", "2chr", "2 chron", "2chron", "ii chr", "ii chron"]⟩,
  ⟨"Ezra", "ezra", 15, 10, ["ezra", "ezr"]⟩,
  ⟨"Nehemiah", "nehemiah", 16, 13, ["neh"]⟩,
  ⟨"Esther", "esther", 17, 10, ["esth", "est"]⟩,
  ⟨"Job", "job", 18, 42, ["job"]⟩,
  ⟨"Psalms", "psalms", 19, 150, ["ps", "pss", "psa", "psalm", "psalms"]⟩,
  ⟨"Proverbs", "proverbs", 20, 31, ["prov", "pro", "prv"]⟩,
  ⟨"Ecclesiastes", "ecclesiastes", 21, 12, ["eccl", "eccles", "ecc", "qoh", "qoheleth"]⟩,
  ⟨"Song of Solomon", "song-of-solomon", 22, 8, ["song of sol", "song of songs", "canticles", "cant"]⟩,
  ⟨"Isaiah", "isaiah", 23, 66, ["isa"]⟩,
  ⟨"Jeremiah", "jeremiah", 24, 52, ["jer", "jr"]⟩,
  ⟨"Lamentations", "lamentations", 25, 5, ["lam"]⟩,
  ⟨"Ezekiel", "ezekiel", 26, 48, ["ezek", "ezk"]⟩,
  ⟨"Daniel", "daniel", 27, 12, ["dan", "dn"]⟩,
  ⟨"Hosea", "hosea", 28, 14, ["hos"]⟩,
  ⟨"Joel", "joel", 29, 3, ["joel"]⟩,
  ⟨"Amos", "amos", 30, 9, ["amos", "amo"]⟩,
  ⟨"Obadiah", "obadiah", 31, 1, ["obad", "oba"]⟩,
  ⟨"Jonah", "jonah", 32, 4, ["jonah", "jon", "jnh"]⟩,
  ⟨"Micah", "micah", 33, 7, ["mic"]⟩,
  ⟨"Nahum", "nahum", 34, 3, ["nah"]⟩,
  ⟨"Habakkuk", "habakkuk", 35, 3, ["hab"]⟩,
  ⟨"Zephaniah", "zephaniah", 36, 3, ["zeph", "zep"]⟩,
  ⟨"Haggai", "haggai", 37, 2, ["hag"]⟩,
  ⟨"Zechariah", "zechariah", 38, 14, ["zech", "zec"]⟩,
  ⟨"Malachi", "malachi", 39, 4, ["mal"]⟩,
  ⟨"Tobit", "tobit", 40, 14, ["tob", "tobit"]⟩,
  ⟨"Judith", "judith", 41, 16, ["jdt", "judith"]⟩,
  ⟨"1 Maccabees", "1-maccabees", 42, 16, ["1 macc", "1macc", "1 mac", "1mac", "i macc", "i mac", "1 m"]⟩,
  ⟨"2 Maccabees", "2-maccabees", 43, 15, ["2 macc", "2macc", "2 mac", "2mac", "ii macc", "ii mac"]⟩,
  ⟨"3 Maccabees", "3-maccabees", 44, 7, ["3 macc", "3macc", "3 mac", "3mac", "iii macc", "iii mac"]⟩,
  ⟨"4 Maccabees", "4-maccabees", 45, 18, ["4 macc", "4macc", "4 mac", "4mac", "iv macc", "iv mac"]⟩,
  ⟨"Wisdom of Solomon", "wisdom", 46, 19, ["wis", "wisd", "wisdom of sol", "wisdom"]⟩,
  ⟨"Sirach", "sirach", 47, 51, ["sir", "sirach", "ecclus", "ecclesiasticus"]⟩,
  ⟨"Baruch", "baruch", 48, 6, ["bar", "baruch"]⟩,
  ⟨"Letter of Jeremiah", "letter-of-jeremiah", 49, 1, ["let jer", "ep jer", "epistle of jer"]⟩,
  ⟨"Prayer of Azariah", "prayer-of-azariah", 50, 1, ["pr azar", "sg three", "song of three"]⟩,
  ⟨"Susanna", "susanna", 51, 1, ["susanna"]⟩,
  ⟨"Bel and the Dragon", "bel", 52, 1, ["bel", "bel and dragon"]⟩,
  ⟨"Prayer of Manasseh", "prayer-of-manasseh", 53, 1, ["pr man", "prayer of man"]⟩,
  ⟨"1 Esdras", "1-esdras", 54, 9, ["1 esd", "1esd", "i esd", "3 ezra"]⟩,
  ⟨"2 Esdras", "2-esdras", 55, 16, ["2 esd", "2esd", "ii esd", "4 ezra"]⟩,
  ⟨"Matthew", "matthew", 56, 28, ["matt", "mat", "mt"]⟩,
  ⟨"Mark", "mark", 57, 16, ["mark", "mar", "mrk", "mk"]⟩,
  ⟨"Luke", "luke", 58, 24, ["luke", "luk", "lk"]⟩,
  ⟨"John", "john", 59, 21, ["john", "joh", "jhn", "jn"]⟩,
  ⟨"Acts", "acts", 60, 28, ["acts", "act"]⟩,
  ⟨"Romans", "romans", 61, 16, ["rom", "ro", "rm"]⟩,
  ⟨"1 Corinthians", "1-corinthians", 62, 16, ["1 cor", "1cor", "i cor", "1 co", "1co"]⟩,
  ⟨"2 Corinthians", "2-corinthians", 63, 13, ["2 cor", "2cor", "ii cor", "2 co", "2co"]⟩,
  ⟨"Galatians", "galatians", 64, 6, ["gal", "ga"]⟩,
  ⟨"Ephesians", "ephesians", 65, 6, ["eph", "ephes"]⟩,
  ⟨"Philippians", "philippians", 66, 4, ["phil", "php", "pp"]⟩,
  ⟨"Colossians", "colossians", 67, 4, ["col"]⟩,
  ⟨"1 Thessalonians", "1-thessalonians", 68, 5, ["1 thess", "1thess", "1 thes", "1thes", "i thess", "i thes", "1 th"]⟩,
  ⟨"2 Thessalonians", "2-thessalonians", 69, 3, ["2 thess", "2thess", "2 thes", "2thes", "ii thess", "ii thes", "2 th"]⟩,
  ⟨"1 Timothy", "1-timothy", 70, 6, ["1 tim", "1tim", "i tim", "1 ti", "1ti"]⟩,
  ⟨"2 Timothy", "2-timothy", 71, 4, ["2 tim", "2tim", "ii tim", "2 ti", "2ti"]⟩,
  ⟨"Titus", "titus", 72, 3, ["tit", "ti"]⟩,
  ⟨"Philemon", "philemon", 73, 1, ["phlm", "phm", "philem"]⟩,
  ⟨"Hebrews", "hebrews", 74, 13, ["heb"]⟩,
  ⟨"James", "james", 75, 5, ["jas", "jam", "jm"]⟩,
  ⟨"1 Peter", "1-peter", 76, 5, ["1 pet", "1pet", "1 pe", "1pe", "i pet", "i pe", "1 pt", "1pt"]⟩,
  ⟨"2 Peter", "2-peter", 77, 3, ["2 pet", "2pet", "2 pe", "2pe", "ii pet", "ii pe", "2 pt", "2pt"]⟩,
  ⟨"1 John", "1-john", 78, 5, ["1 john", "1john", "1 jn", "1jn", "i john", "i jn", "1 jo", "1jo"]⟩,
  ⟨"2 John", "2-john", 79, 1, ["2 john", "2john", "2 jn", "2jn", "ii john", "ii jn"]⟩,
  ⟨"3 John", "3-john", 80, 1, ["3 john", "3john", "3 jn", "3jn", "iii john", "iii jn"]⟩,
  ⟨"Jude", "jude", 81, 1, ["jude", "jud"]⟩,
  ⟨"Revelation", "revelation", 82, 22, ["rev", "the revelation", "apocalypse", "apoc"]⟩]

/-- Lower-cased canonical name of a book (ASCII). -/
def lowerName (b : Book) : String := String.mk (lowerList b.name.data)

/-- Insertion-order pairs of `bible_data._abbrev_map`: for each book all its
abbreviations, then its lower-cased full name. -/
def abbrevPairs : List (String × Book) :=
  books.flatMap fun b => (b.abbrevs.map fun a => (a, b)) ++ [(lowerName b, b)]

/-- Lookup in `bible_data.ABBREV_LOOKUP`.  A Python dict keeps the LAST
write for a duplicated key, hence the search over the reversed pair list.
(The length-descending sort in the source reorders keys for the regex
alternation but does not change the key → book mapping.) -/
def abbrevLookup (k : String) : Option Book :=
  (abbrevPairs.reverse.find? fun p => p.1 = k).map Prod.snd

/-! ## Plain-text book resolver (`parser._resolve_book`) -/

/-- Attempt of the regex `st(?:\.?\s+|aint\s+)` at the head of `s`
(the `\b` boundary is checked by the caller).  Returns the number of
characters consumed.  The alternation tries `\.?\s+` first; since the
branches are disjoint on the character after `st`, no backtracking across
branches can occur.  Note the regex requires a literal `st` before
`aint`, so it matches `"st "`, `"st. "` and `"staint "` — not `"saint "`. -/
def stMatch : List Char → Option Nat
  | 's' :: 't' :: rest =>
      match rest with
      | '.' :: r2 =>
          let w := (r2.takeWhile isPySpace).length
          if w ≥ 1 then some (3 + w) else none
      | 'a' :: 'i' :: 'n' :: 't' :: r3 =>
          let w := (r3.takeWhile isPySpace).length
          if w ≥ 1 then some (6 + w) else none
      | other =>
          let w := (other.takeWhile isPySpace).length
          if w ≥ 1 then some (2 + w) else none
  | _ => none

/-- `re.sub(r"\bst(?:\.?\s+|aint\s+)", "", s)`: scan left to right carrying
the previous character for the word-boundary test; on a match, delete the
matched span and resume after it (all matched text ends in whitespace, so
the boundary state becomes non-word). -/
def stSubGo : Nat → List Char → Option Char → List Char
  | 0, s, _ => s
  | _ + 1, [], _ => []
  | fuel + 1, c :: rest, prev =>
      let boundary := match prev with
        | none => true
        | some p => !isWordChar p
      if boundary then
        match stMatch (c :: rest) with
        | some l => stSubGo fuel ((c :: rest).drop l) (some ' ')
        | none => c :: stSubGo fuel rest (some c)
      else c :: stSubGo fuel rest (some c)

/-- The whole `re.sub` for the St/Saint prefix removal. -/
def stSub (s : List Char) : List Char := stSubGo s.length s none

/-- `re.sub(r"\s+", " ", s)`: collapse each maximal whitespace run to one
space.  `prevWs` records whether the previous character was whitespace. -/
def collapseWsGo : List Char → Bool → List Char
  | [], _ => []
  | c :: rest, prevWs =>
      if isPySpace c then
        if prevWs then collapseWsGo rest true else ' ' :: collapseWsGo rest true
      else c :: collapseWsGo rest false

/-- Normalisation pipeline of `parser._resolve_book`: lower-case, remove
`st`-prefix matches, remove dots, collapse whitespace, strip. -/
def normalizeBook (raw : List Char) : List Char :=
  pyStrip (collapseWsGo ((stSub (lowerList raw)).filter (· ≠ '.')) false)

/-- Embeds `parser._resolve_book`: normalise, look up, then retry after
`rstrip(" .")`. -/
def resolveBook (raw : List Char) : Option Book :=
  let s := normalizeBook raw
  match abbrevLookup (String.mk s) with
  | some b => some b
  | none =>
      let s2 := rstripSet (fun c => c = ' ' || c = '.') s
      abbrevLookup (String.mk s2)

/-! ## ThML book-name lookup (`parse_thml._NAME_LOOKUP`,
`parse_thml._resolve_book_name`) -/

/-- Insertion-order pairs of the first stage of `parse_thml._NAME_LOOKUP`:
per book its lower-cased name, its slug, and the hard-coded CCEL variants. -/
def namePairs : List (String × Book) :=
  books.flatMap fun b =>
    [(lowerName b, b), (b.slug, b)]
    ++ (if b.name = "Psalms" then [("psalm", b)] else [])
    ++ (if b.name = "Song of Solomon" then
          [("song of songs", b), ("canticle of canticles", b)] else [])
    ++ (if b.name = "Revelation" then [("revelations", b), ("apocalypse", b)] else [])

/-- Lookup in `parse_thml._NAME_LOOKUP`: name/slug/variant keys first
(dict last-write-wins), then the abbreviation table merged via
`setdefault` (an abbreviation key applies only when absent above). -/
def nameLookup (k : String) : Option Book :=
  match (namePairs.reverse.find? fun p => p.1 = k).map Prod.snd with
  | some b => some b
  | none => abbrevLookup k

/-- Regex `^([1-4])([A-Za-z])` substitution with `"\1 \2"`:
insert a space after a leading digit 1–4 glued to a letter. -/
def numPrefixSpace (l : List Char) : List Char :=
  match l with
  | d :: c :: rest =>
      if ('1' ≤ d && d ≤ '4') && (c.isAlpha) then d :: ' ' :: c :: rest else l
  | _ => l

/-- Embeds `parse_thml._resolve_book_name`: strip, lower-case, direct
lookup, then a single retry with a space inserted after a glued numeric
prefix. -/
def resolveBookName (name : List Char) : Option Book :=
  let lower := lowerList (pyStrip name)
  match nameLookup (String.mk lower) with
  | some b => some b
  | none =>
      let spaced := numPrefixSpace lower
      if spaced ≠ lower then nameLookup (String.mk spaced) else none

/-! ## Structured-payload decoding (`parse_thml._parse_parsed_attr`) -/

/-- One decoded citation of a `parsed` attribute segment. -/
structure Citation where
  bookEntry : Book
  chapter : Int
  verseStart : Option Int
  verseEnd : Option Int
deriving DecidableEq, Repr

/-- Decoding of one semicolon-delimited segment (the loop body of
`parse_thml._parse_parsed_attr`).  A segment yields nothing when, in
source order: it strips to empty; it does not have exactly six
pipe-delimited fields; the book name does not resolve; `int()` fails on
fromChapter, fromVerse or toVerse (the source never parses the toChapter
field); or fromChapter < 1. -/
def segParse (segment : List Char) : Option Citation :=
  let seg := pyStrip segment
  if seg = [] then none
  else
    match pySplitChar '|' seg with
    | [_version, bookName, fromChS, fromVS, _toChS, toVS] =>
        match resolveBookName bookName with
        | none => none
        | some be =>
            match pyInt fromChS, pyInt fromVS, pyInt toVS with
            | some fromCh, some fromV, some toV =>
                if fromCh < 1 then none
                else
                  some ⟨be, fromCh,
                        if fromV > 0 then some fromV else none,
                        if toV > 0 ∧ toV ≠ fromV then some toV else none⟩
            | _, _, _ => none
    | _ => none

/-- Embeds `parse_thml._parse_parsed_attr`: split on semicolons, decode
each segment independently, keep the successes in order. -/
def parseParsedAttr (parsed : List Char) : List Citation :=
  (pySplitChar ';' parsed).filterMap segParse

/-! ## Plain-text match processing (`parser.parse_file` loop body) -/

/-- A citation row produced by the plain-text pipeline (the fields of a
`verse_refs` row that come from resolution, offsets aside). -/
structure PlainRecord where
  book : Book
  chapter : Int
  verseStart : Option Int
  verseEnd : Option Int
deriving DecidableEq, Repr

/-- Chapter resolution of `parser.parse_file`: strip the raw token,
drop trailing dots, then Roman conversion if the token is Roman,
otherwise Python `int()`. -/
def chapterValue (rawChapter : List Char) : Option Int :=
  let chStr := rstripSet (· = '.') (pyStrip rawChapter)
  if isRoman chStr then romanToInt chStr else pyInt chStr

/-- Embeds the per-match body of `parser.parse_file`: a match is dropped
when the chapter group is missing (or empty, Python falsiness), the book
does not resolve, the chapter does not parse, or the chapter falls
outside `1..book.chapters`; otherwise the verse field is parsed and a
record is produced. -/
def processMatch (rawBook : List Char) (rawChapter : Option (List Char))
    (rawVerse : Option (List Char)) : Option PlainRecord :=
  match rawChapter with
  | none => none
  | some rc =>
      if rc = [] then none
      else
        match resolveBook rawBook with
        | none => none
        | some book =>
            match chapterValue rc with
            | none => none
            | some chapter =>
                if chapter < 1 ∨ chapter > (book.chapters : Int) then none
                else
                  let v := parseVerseField rawVerse
                  some ⟨book, chapter, v.1, v.2⟩

/-! ## Sentence segmentation (`parser.split_sentences`) -/

/-- The abbreviation-exception set `parser._ABBREV_ENDINGS`
(source order; `"rev"` is listed twice in the source set literal). -/
def abbrevEndings : List (List Char) :=
  ["mr", "mrs", "dr", "prof", "rev", "st", "sts", "vs", "etc", "cf",
   "viz", "vol", "vols", "ch", "chap", "no", "fig", "ms", "mss", "op",
   "cit", "pp", "gen", "ex", "lev", "num", "deut", "josh", "judg", "psa",
   "ps", "prov", "eccl", "isa", "jer", "lam", "ezek", "dan", "hos",
   "matt", "mar", "luk", "joh", "rom", "cor", "gal", "eph", "phil", "col",
   "thess", "tim", "tit", "heb", "jas", "jam", "pet", "rev", "i", "ii",
   "iii"].map String.data

/-- Characters of the regex class `["\')]` (closing quotes/paren). -/
def isCloseQuote (c : Char) : Bool := c = '"' || c = '\'' || c = ')'

/-- Attempt of `parser._SENT_SPLIT_RE` = `([.!?]["\')]*)\s+(?=[A-Z"([])`
at the head of the input.  Returns the captured group (punctuation plus
close-quote run) and the total number of characters consumed (the
whitespace is consumed but not captured).  Greediness is deterministic:
shorter quote or whitespace runs leave a character the next regex piece
cannot match. -/
def sentMatchAt : List Char → Option (List Char × Nat)
  | [] => none
  | c :: rest =>
      if c = '.' || c = '!' || c = '?' then
        let q := rest.takeWhile isCloseQuote
        let afterQ := rest.dropWhile isCloseQuote
        let w := afterQ.takeWhile isPySpace
        let afterW := afterQ.dropWhile isPySpace
        if w = [] then none
        else
          match afterW with
          | d :: _ =>
              if d.isUpper || d = '"' || d = '(' || d = '[' then
                some (c :: q, 1 + q.length + w.length)
              else none
          | [] => none
      else none

/-- `re.split` with one capture group: the pieces between matches
interleaved with the captured groups (matched whitespace is dropped). -/
def splitPartsGo : Nat → List Char → List Char → List (List Char)
  | 0, rem, acc => [acc.reverse ++ rem]
  | _ + 1, [], acc => [acc.reverse]
  | fuel + 1, c :: rest, acc =>
      match sentMatchAt (c :: rest) with
      | some (cap, tot) => acc.reverse :: cap :: splitPartsGo fuel ((c :: rest).drop tot) []
      | none => splitPartsGo fuel rest (c :: acc)

/-- `parts = _SENT_SPLIT_RE.split(text)`. -/
def splitParts (l : List Char) : List (List Char) := splitPartsGo (l.length + 1) l []

/-- The `last_word` extraction of `parser.split_sentences`:
`re.search(r"(\w+)\s*[.!?][\"')]*$", buf.rstrip())`, lower-cased, or the
empty word when the pattern does not match.  Anchored at the end, the
match is forced: strip trailing whitespace, then the maximal run of
closing quotes, then one sentence-ending punctuation mark, optional
whitespace, and the maximal word-character run. -/
def lastWordOf (buf : List Char) : List Char :=
  let r := (pyRStrip buf).reverse
  match r.dropWhile isCloseQuote with
  | p :: r2 =>
      if p = '.' || p = '!' || p = '?' then
        (((r2.dropWhile isPySpace).takeWhile isWordChar).reverse).map Char.toLower
      else []
  | [] => []

/-- The reconstruction loop of `parser.split_sentences`: consume
(chunk, punct) pairs, append both to the buffer, and emit the stripped
buffer as a sentence only when the punctuation is nonempty and the last
word before it is not a known abbreviation.  The trailing unpaired chunk
(empty captured group) never triggers a break; a nonempty leftover buffer
is emitted at the end. -/
def sentGo : List (List Char) → List Char → List (List Char)
  | [], buf => if pyStrip buf ≠ [] then [pyStrip buf] else []
  | [chunk], buf =>
      let b := buf ++ chunk
      if pyStrip b ≠ [] then [pyStrip b] else []
  | chunk :: punct :: rest, buf =>
      let b := buf ++ chunk ++ punct
      if punct ≠ [] && !(abbrevEndings.contains (lastWordOf b)) then
        pyStrip b :: sentGo rest []
      else sentGo rest b

/-- The cleanup pass of `parser.split_sentences`: drop empty sentences
and merge any fragment shorter than 10 characters into its predecessor. -/
def mergeShortGo : List (List Char) → List (List Char) → List (List Char)
  | acc, [] => acc
  | acc, s :: rest =>
      let s1 := pyStrip s
      if s1 = [] then mergeShortGo acc rest
      else if acc ≠ [] && s1.length < 10 then
        mergeShortGo (acc.dropLast ++ [acc.getLastD [] ++ ' ' :: s1]) rest
      else mergeShortGo (acc ++ [s1]) rest

/-- Embeds `parser.split_sentences`. -/
def splitSentences (l : List Char) : List (List Char) :=
  mergeShortGo [] (sentGo (splitParts l) [])

/-! ## Paragraph bounds (`parser._find_paragraph_bounds`) -/

/-- Length of a match of the blank-line regex `\n[ \t]*\n` at the head of
the input, if any (greedy `[ \t]*` is deterministic: a shorter run leaves
a space or tab where a newline is required). -/
def blankPrefixLen : List Char → Option Nat
  | '\n' :: r =>
      let k := (r.takeWhile fun c => c = ' ' || c = '\t').length
      match r.drop k with
      | '\n' :: _ => some (k + 2)
      | _ => none
  | _ => none

/-- Start index of the first blank-line match at or after the head
(`blank_line.search`). -/
def firstBlankStart : List Char → Option Nat
  | [] => none
  | c :: rest =>
      if (blankPrefixLen (c :: rest)).isSome then some 0
      else (firstBlankStart rest).map (· + 1)

/-- Non-overlapping left-to-right scan of `blank_line.finditer`, keeping
the end offset of the last match (`acc`); `pos` is the absolute offset of
the remaining input. -/
def scanBlankGo : Nat → List Char → Nat → Nat → Nat
  | 0, _, _, acc => acc
  | _ + 1, [], _, acc => acc
  | fuel + 1, c :: rest, pos, acc =>
      match blankPrefixLen (c :: rest) with
      | some l => scanBlankGo fuel ((c :: rest).drop l) (pos + l) (pos + l)
      | none => scanBlankGo fuel rest (pos + 1) acc

/-- End offset of the last blank-line match in `s` (0 when none). -/
def lastBlankEnd (s : List Char) : Nat := scanBlankGo s.length s 0 0

/-- Embeds `parser._find_paragraph_bounds`: the last blank-line match
before the offset (`finditer(text, 0, char_offset)` truncates the text at
the offset) and the first blank-line match at or after it (end of text
when none). -/
def findParagraphBounds (t : List Char) (off : Nat) : Nat × Nat :=
  let paraStart := lastBlankEnd (t.take off)
  let paraEnd :=
    match firstBlankStart (t.drop off) with
    | some p => off + p
    | none => t.length
  (paraStart, paraEnd)

/-! ## Passage window extraction (`parser.extract_passage_offsets`) -/

/-- `parser.MAX_SENTENCES`. -/
def maxSentences : Nat := 10

/-- Python `str.find(needle)` on lists: first index where `needle` starts,
scanning every index up to and including the end. -/
def findAux (hay needle : List Char) : Option Nat :=
  if needle.isPrefixOf hay then some 0
  else
    match hay with
    | [] => none
    | _ :: t => (findAux t needle).map (· + 1)

/-- Python `str.find(needle, start)`. -/
def findFrom (hay needle : List Char) (start : Nat) : Option Nat :=
  if start ≤ hay.length then (findAux (hay.drop start) needle).map (· + start) else none

/-- Python `str.rfind(needle)`: last index where `needle` starts. -/
def rfindAux (hay needle : List Char) : Option Nat :=
  match hay with
  | [] => if needle = [] then some 0 else none
  | _ :: t =>
      match rfindAux t needle with
      | some p => some (p + 1)
      | none => if needle.isPrefixOf hay then some 0 else none

/-- The citation-sentence scan of `parser.extract_passage_offsets`:
locate each sentence from a moving cursor (falling back to the cursor on
a failed find), and remember the index of the last sentence whose span
contains the citation's paragraph-relative offset. -/
def citeIdxGo (para : List Char) (citeRel : Nat) :
    List (List Char) → Nat → Nat → Nat → Nat
  | [], _, _, idx => idx
  | sent :: rest, i, cursor, idx =>
      let pos := (findFrom para sent cursor).getD cursor
      let idx1 := if pos ≤ citeRel && citeRel ≤ pos + sent.length then i else idx
      citeIdxGo para citeRel rest (i + 1) (pos + sent.length) idx1

/-- The clamped window-index arithmetic of `parser.extract_passage_offsets`
(`half`, `start_idx`, `end_idx`; Python's `max(0, ·)` is Nat truncated
subtraction). -/
def windowIdx (n idx : Nat) : Nat × Nat :=
  let half := maxSentences / 2
  let start0 := idx - half
  let endIdx := min n (start0 + maxSentences)
  let startIdx := endIdx - maxSentences
  (startIdx, endIdx)

/-- The paragraph substring `text[para_start:para_end]`. -/
def paragraphSlice (t : List Char) (off : Nat) : List Char :=
  let pb := findParagraphBounds t off
  (t.drop pb.1).take (pb.2 - pb.1)

/-- Embeds `parser.extract_passage_offsets`.  The whole paragraph is
returned when it has at most `maxSentences` sentences; otherwise a window
of sentences around the citation's sentence is chosen and its bounds are
located by first/last occurrence of the boundary sentences' text.  (The
source also joins the window's sentences into `window_text`, which it
never uses; that dead assignment is not modelled.) -/
def extractPassageOffsets (t : List Char) (off : Nat) : Nat × Nat :=
  let pb := findParagraphBounds t off
  let para := (t.drop pb.1).take (pb.2 - pb.1)
  let sents := splitSentences para
  if sents.length ≤ maxSentences then pb
  else
    let citeRel := off - pb.1
    let citeIdx := citeIdxGo para citeRel sents 0 0 0
    let w := windowIdx sents.length citeIdx
    let window := (sents.drop w.1).take (w.2 - w.1)
    let firstS := window.headD []
    let lastS := window.getLastD []
    let winStart := (findFrom para firstS 0).getD 0
    let winEnd :=
      match rfindAux para lastS with
      | some p => p + lastS.length
      | none => para.length
    (pb.1 + winStart, pb.1 + winEnd)

/-- The window of sentences chosen by `parser.extract_passage_offsets`
(`window_sentences`, lines 240–246 of the source), as a standalone
function of the text and offset. -/
def extractWindow (t : List Char) (off : Nat) : List (List Char) :=
  let sents := splitSentences (paragraphSlice t off)
  let w := windowIdx sents.length
    (citeIdxGo (paragraphSlice t off) (off - (findParagraphBounds t off).1) sents 0 0 0)
  (sents.drop w.1).take (w.2 - w.1)

/-- Unfolding of `extractPassageOffsets` in the more-than-`maxSentences`
branch, with every intermediate written as a standalone application (used
to evaluate the function stepwise on concrete inputs). -/
theorem extractPassageOffsets_window_form (t : List Char) (off : Nat)
    (h : ¬ (splitSentences (paragraphSlice t off)).length ≤ maxSentences) :
    extractPassageOffsets t off =
      ((findParagraphBounds t off).1 +
         (findFrom (paragraphSlice t off) ((extractWindow t off).headD []) 0).getD 0,
       (findParagraphBounds t off).1 +
         match rfindAux (paragraphSlice t off) ((extractWindow t off).getLastD []) with
         | some p => p + ((extractWindow t off).getLastD []).length
         | none => (paragraphSlice t off).length) := by
  simp only [extractPassageOffsets, extractWindow, paragraphSlice] at *
  rw [if_neg h]

/-! ## Document linearization (`parse_thml._TextBuilder`) -/

/-- An element of the parsed ThML document tree (lxml model): local tag
name, own text, children in document order, and the tail text following
the closing tag.  lxml's optional (`None`) text/tail behave exactly like
the empty string under `_TextBuilder._append`. -/
inductive XmlElem where
  | mk (tag : String) (text : List Char) (children : List XmlElem) (tail : List Char)

/-- Tag of an element. -/
def XmlElem.tag : XmlElem → String
  | .mk t _ _ _ => t

/-- Own text of an element. -/
def XmlElem.text : XmlElem → List Char
  | .mk _ x _ _ => x

/-- Children of an element. -/
def XmlElem.children : XmlElem → List XmlElem
  | .mk _ _ c _ => c

/-- Tail text of an element. -/
def XmlElem.tail : XmlElem → List Char
  | .mk _ _ _ x => x

/-- `parse_thml._SKIP_CONTENT_TAGS`: content-suppressing tags. -/
def skipContentTags : List String :=
  ["ThML.head", "head", "note", "scripCom", "index", "pb", "milestone"]

/-- The builder state of `parse_thml._TextBuilder`: accumulated clean
text (`_parts` joined) and the recorded (scripRef element, offset) hits. -/
structure BuilderState where
  acc : List Char
  hits : List (XmlElem × Nat)

/-- Embeds `parse_thml._TextBuilder.walk`.  Outside a suppressed subtree:
record a `scripRef` hit at the current output length, append the node's
own text, and recurse with `in_skip = False`.  Inside (or entering) a
suppressed subtree: recurse into the children with `in_skip = True`
without emitting anything.  The tail is appended if and only if the
parent is not suppressed. -/
def walkSt : XmlElem → Bool → BuilderState → BuilderState
  | el@(.mk tag text children tail), inSkip, st =>
      let enteringSkip := skipContentTags.contains tag
      let skipContent := inSkip || enteringSkip
      let st1 :=
        if skipContent then walkList children true st
        else
          let stA := if tag = "scripRef" then
              { st with hits := st.hits ++ [(el, st.acc.length)] } else st
          let stB := { stA with acc := stA.acc ++ text }
          walkList children false stB
      if inSkip then st1 else { st1 with acc := st1.acc ++ tail }
where
  /-- The `for child in el` loops of `walk`. -/
  walkList : List XmlElem → Bool → BuilderState → BuilderState
    | [], _, st => st
    | c :: rest, inSkip, st => walkList rest inSkip (walkSt c inSkip st)

/-- The clean text of a document (`_TextBuilder.text` after
`builder.walk(root)`). -/
def linearize (root : XmlElem) : List Char :=
  (walkSt root false ⟨[], []⟩).acc

/-- Naive substring test (`needle in haystack` for strings). -/
def containsSub (hay needle : List Char) : Bool :=
  (findAux hay needle).isSome

/-! ## General lemmas about the embedded functions -/

mutual

/-- Inside a suppressed subtree the walk emits nothing and records no
hits: `walk(el, in_skip=True)` leaves the builder state unchanged. -/
theorem walkSt_skip (el : XmlElem) (st : BuilderState) : walkSt el true st = st := by
  cases el with
  | mk tag text children tail =>
      rw [walkSt]
      simp [walkList_skip children st]

/-- List version of `walkSt_skip`. -/
theorem walkList_skip (ch : List XmlElem) (st : BuilderState) :
    walkSt.walkList ch true st = st := by
  cases ch with
  | nil => rw [walkSt.walkList]
  | cons c rest =>
      rw [walkSt.walkList, walkSt_skip c st]
      exact walkList_skip rest st

end

/-- `parser._parse_verse_field` sets `verse_end` only when it is a digit
run distinct from `verse_start` (it need not be larger). -/
theorem parseVerseField_snd (ov : Option (List Char)) (y : Int)
    (h : (parseVerseField ov).2 = some y) :
    ∃ x, (parseVerseField ov).1 = some x ∧ y ≠ x := by
  match ov with
  | none => simp [parseVerseField] at h
  | some vs =>
      simp only [parseVerseField] at h ⊢
      by_cases he : vs = []
      · simp [he] at h
      · simp only [if_neg he] at h ⊢
        cases hr : digitRunsInt vs with
        | nil => rw [hr] at h; simp at h
        | cons n rest =>
            rw [hr] at h
            dsimp only at h ⊢
            by_cases hl : (n :: rest).getLastD n ≠ n
            · simp only [if_pos hl] at h
              refine ⟨n, rfl, ?_⟩
              simp only [Option.some.injEq] at h
              omega
            · simp only [if_neg hl] at h
              simp at h

/-- A blank-line match is nonempty and fits inside the scanned text. -/
theorem blankPrefixLen_bounds (s : List Char) (l : Nat)
    (h : blankPrefixLen s = some l) : 1 ≤ l ∧ l ≤ s.length := by
  unfold blankPrefixLen at h
  dsimp only at h
  split at h
  case _ r =>
    split at h
    case _ x heq =>
      simp only [Option.some.injEq] at h
      have hk : (r.takeWhile fun c => c = ' ' || c = '\t').length ≤ r.length :=
        (List.takeWhile_prefix _).length_le
      have hd := congrArg List.length heq
      rw [List.length_drop] at hd
      simp only [List.length_cons] at hd
      simp only [List.length_cons]
      omega
    case _ => exact absurd h (by simp)
  case _ => exact absurd h (by simp)

/-- The last-match-end scan never reports an offset beyond the scanned
text. -/
theorem scanBlankGo_le (fuel : Nat) : ∀ (s : List Char) (pos acc : Nat),
    acc ≤ pos → scanBlankGo fuel s pos acc ≤ pos + s.length := by
  induction fuel with
  | zero => intro s pos acc h; rw [scanBlankGo]; omega
  | succ n ih =>
      intro s pos acc h
      match s with
      | [] => rw [scanBlankGo]; omega
      | c :: rest =>
          rw [scanBlankGo]
          cases hb : blankPrefixLen (c :: rest) with
          | none =>
              have := ih rest (pos + 1) acc (by omega)
              simp only [List.length_cons]
              omega
          | some l =>
              have hl := blankPrefixLen_bounds _ _ hb
              have hs := ih ((c :: rest).drop l) (pos + l) (pos + l) (le_refl _)
              have hdl : ((c :: rest).drop l).length = (c :: rest).length - l :=
                List.length_drop _ _
              rw [hdl] at hs
              simp only [List.length_cons] at hs hl ⊢
              omega

/-- The end of the last blank-line match lies inside the text. -/
theorem lastBlankEnd_le (s : List Char) : lastBlankEnd s ≤ s.length := by
  have := scanBlankGo_le s.length s 0 0 (le_refl 0)
  rw [lastBlankEnd]
  omega

/-- A found blank-line match starts strictly inside the text. -/
theorem firstBlankStart_lt (s : List Char) (p : Nat)
    (h : firstBlankStart s = some p) : p < s.length := by
  induction s generalizing p with
  | nil => simp [firstBlankStart] at h
  | cons c rest ih =>
      rw [firstBlankStart] at h
      split at h
      · simp only [Option.some.injEq] at h
        simp [← h]
      · match hr : firstBlankStart rest with
        | none => rw [hr] at h; simp at h
        | some q =>
            rw [hr] at h
            simp at h
            have := ih q hr
            simp only [List.length_cons]
            omega

/-- Paragraph bounds bracket the offset and stay inside the text. -/
theorem findParagraphBounds_spec (t : List Char) (off : Nat) (h : off ≤ t.length) :
    (findParagraphBounds t off).1 ≤ off ∧ off ≤ (findParagraphBounds t off).2 ∧
      (findParagraphBounds t off).2 ≤ t.length := by
  unfold findParagraphBounds
  dsimp only
  refine ⟨?_, ?_, ?_⟩
  · have h1 := lastBlankEnd_le (t.take off)
    have h2 : (t.take off).length ≤ off := by
      rw [List.length_take]; omega
    omega
  · cases hb : firstBlankStart (t.drop off) with
    | none => exact h
    | some p => show off ≤ off + p; omega
  · cases hb : firstBlankStart (t.drop off) with
    | none => exact le_refl _
    | some p =>
        have h1 := firstBlankStart_lt _ _ hb
        have h2 : (t.drop off).length = t.length - off := List.length_drop _ _
        show off + p ≤ t.length
        omega

/-- The at-most-`maxSentences` branch of `extract_passage_offsets`
returns the paragraph bounds unchanged. -/
theorem extractPassageOffsets_whole_paragraph (t : List Char) (off : Nat)
    (h : (splitSentences (paragraphSlice t off)).length ≤ maxSentences) :
    extractPassageOffsets t off = findParagraphBounds t off := by
  simp only [extractPassageOffsets, paragraphSlice] at *
  rw [if_pos h]

/-- For a paragraph with more than `maxSentences` sentences the clamped
index window always selects exactly `maxSentences` consecutive indices
inside the paragraph. -/
theorem windowIdx_exact (n idx : Nat) (h : maxSentences < n) :
    (windowIdx n idx).2 - (windowIdx n idx).1 = maxSentences ∧
      (windowIdx n idx).2 ≤ n := by
  simp only [windowIdx, maxSentences] at *
  omega

/-- `str.split` never returns an empty list. -/
theorem pySplitChar_ne_nil (sep : Char) (l : List Char) : pySplitChar sep l ≠ [] := by
  cases l with
  | nil => simp [pySplitChar]
  | cons c rest =>
      rw [pySplitChar]
      split
      · simp
      · split <;> simp_all

/-- `str.split` distributes over a separator occurrence. -/
theorem pySplitChar_append (sep : Char) (a b : List Char) :
    pySplitChar sep (a ++ sep :: b) = pySplitChar sep a ++ pySplitChar sep b := by
  induction a with
  | nil =>
      simp only [List.nil_append]
      rw [pySplitChar]
      simp [pySplitChar]
  | cons c rest ih =>
      simp only [List.cons_append]
      rw [pySplitChar]
      by_cases hc : c = sep
      · rw [if_pos hc, ih]
        rw [show pySplitChar sep (c :: rest) = [] :: pySplitChar sep rest by
              rw [pySplitChar]; simp [hc]]
        simp
      · rw [if_neg hc, ih]
        match hr : pySplitChar sep rest with
        | [] => exact absurd hr (pySplitChar_ne_nil sep rest)
        | h1 :: t1 =>
            rw [show pySplitChar sep (c :: rest) = (c :: h1) :: t1 by
                  rw [pySplitChar]; simp [hc, hr]]
            simp

/-- Segments of a `parsed` attribute are decoded independently: a
semicolon splits the decoding. -/
theorem parseParsedAttr_append (a b : List Char) :
    parseParsedAttr (a ++ ';' :: b) = parseParsedAttr a ++ parseParsedAttr b := by
  unfold parseParsedAttr
  rw [pySplitChar_append, List.filterMap_append]

/-- Every decoded segment has chapter ≥ 1, and its `verse_end`, when
present, is positive and differs from `verse_start`. -/
theorem segParse_some_spec (seg : List Char) (c : Citation) (h : segParse seg = some c) :
    1 ≤ c.chapter ∧ ∀ y, c.verseEnd = some y → 0 < y ∧ c.verseStart ≠ some y := by
  simp only [segParse] at h
  split at h
  · exact absurd h (by simp)
  · split at h
    · split at h
      · exact absurd h (by simp)
      · split at h
        · split at h
          · exact absurd h (by simp)
          · simp only [Option.some.injEq] at h
            subst h
            refine ⟨by dsimp only; omega, ?_⟩
            intro y hy
            dsimp only at hy
            split at hy
            · rename_i hcond
              simp only [Option.some.injEq] at hy
              subst hy
              refine ⟨hcond.1, ?_⟩
              dsimp only
              split
              · simp only [ne_eq, Option.some.injEq]
                intro hcontra
                exact hcond.2 hcontra.symm
              · simp
            · exact absurd hy (by simp)
        · exact absurd h (by simp)
    · exact absurd h (by simp)

/-- A segment without exactly six pipe-delimited fields is skipped. -/
theorem segParse_wrong_fields (seg : List Char)
    (h : (pySplitChar '|' (pyStrip seg)).length ≠ 6) : segParse seg = none := by
  simp only [segParse]
  split
  · rfl
  · split
    · rename_i v bk c1 v1 c2 v2 heq
      rw [heq] at h
      simp at h
    · rfl

/-- A six-field segment is skipped when fromChapter, fromVerse or
toVerse fails to parse, or when fromChapter parses below 1. -/
theorem segParse_numeric_skip (seg : List Char) (v bk c1 v1 c2 v2 : List Char)
    (hsplit : pySplitChar '|' (pyStrip seg) = [v, bk, c1, v1, c2, v2])
    (hbad : pyInt c1 = none ∨ pyInt v1 = none ∨ pyInt v2 = none ∨
      ∃ n, pyInt c1 = some n ∧ n < 1) :
    segParse seg = none := by
  have hne : pyStrip seg ≠ [] := by
    intro he
    rw [he] at hsplit
    simp [pySplitChar] at hsplit
  simp only [segParse, if_neg hne, hsplit]
  cases hbk : resolveBookName bk with
  | none => rfl
  | some be =>
      cases h1 : pyInt c1 with
      | none => rfl
      | some fromCh =>
          cases h2 : pyInt v1 with
          | none => rfl
          | some fromV =>
              cases h3 : pyInt v2 with
              | none => rfl
              | some toV =>
                  rcases hbad with hb | hb | hb | ⟨n, hn, hlt⟩
                  · rw [h1] at hb; cases hb
                  · rw [h2] at hb; cases hb
                  · rw [h3] at hb; cases hb
                  · rw [h1] at hn
                    injection hn with hn
                    subst hn
                    dsimp only
                    rw [if_pos hlt]

/-- A plain-text match with no chapter group yields no record. -/
theorem processMatch_no_chapter (rb : List Char) (rv : Option (List Char)) :
    processMatch rb none rv = none := rfl

/-- A plain-text match whose chapter resolves outside
`1..book.chapters` yields no record. -/
theorem processMatch_out_of_range (rb rc : List Char) (rv : Option (List Char))
    (b : Book) (n : Int) (h1 : resolveBook rb = some b) (h2 : chapterValue rc = some n)
    (h3 : n < 1 ∨ (b.chapters : Int) < n) :
    processMatch rb (some rc) rv = none := by
  simp only [processMatch]
  split
  · rfl
  · rw [h1, h2]
    dsimp only
    rw [if_pos]
    rcases h3 with h | h
    · exact Or.inl h
    · exact Or.inr h

/-- Every plain-text record has its chapter within the book's range and
a `verse_end`, when present, distinct from a present `verse_start`. -/
theorem processMatch_some_spec (rb : List Char) (rc rv : Option (List Char))
    (r : PlainRecord) (h : processMatch rb rc rv = some r) :
    1 ≤ r.chapter ∧ r.chapter ≤ (r.book.chapters : Int) ∧
      ∀ y, r.verseEnd = some y → ∃ x, r.verseStart = some x ∧ y ≠ x := by
  match rc with
  | none => exact absurd h (by simp [processMatch])
  | some rcs =>
      simp only [processMatch] at h
      split at h
      · exact absurd h (by simp)
      · split at h
        · exact absurd h (by simp)
        · split at h
          · exact absurd h (by simp)
          · split at h
            · exact absurd h (by simp)
            · rename_i book hbook chapter hch hrange
              simp only [Option.some.injEq] at h
              subst h
              dsimp only
              push_neg at hrange
              refine ⟨by omega, by omega, ?_⟩
              intro y hy
              exact parseVerseField_snd rv y hy

/-- Whitespace collapsing introduces only spaces. -/
theorem mem_collapseWsGo (c : Char) : ∀ (l : List Char) (b : Bool),
    c ∈ collapseWsGo l b → c = ' ' ∨ c ∈ l := by
  intro l
  induction l with
  | nil => intro b h; simp [collapseWsGo] at h
  | cons d rest ih =>
      intro b h
      rw [collapseWsGo] at h
      split at h
      · split at h
        · rcases ih true h with h1 | h1
          · exact Or.inl h1
          · exact Or.inr (List.mem_cons_of_mem _ h1)
        · rcases List.mem_cons.mp h with h1 | h1
          · exact Or.inl h1
          · rcases ih true h1 with h2 | h2
            · exact Or.inl h2
            · exact Or.inr (List.mem_cons_of_mem _ h2)
      · rcases List.mem_cons.mp h with h1 | h1
        · exact Or.inr (h1 ▸ List.mem_cons_self _ _)
        · rcases ih false h1 with h2 | h2
          · exact Or.inl h2
          · exact Or.inr (List.mem_cons_of_mem _ h2)

/-- Stripping only removes characters. -/
theorem mem_pyStrip (c : Char) (l : List Char) (h : c ∈ pyStrip l) : c ∈ l := by
  unfold pyStrip at h
  rw [List.mem_reverse] at h
  have h1 := (List.dropWhile_sublist _).subset h
  rw [List.mem_reverse] at h1
  exact (List.dropWhile_sublist _).subset h1

/-- The head surviving a `dropWhile` falsifies the predicate. -/
theorem head?_dropWhile_false (p : Char → Bool) : ∀ (l : List Char) (c : Char),
    (l.dropWhile p).head? = some c → p c = false := by
  intro l
  induction l with
  | nil => intro c h; simp [List.dropWhile] at h
  | cons d rest ih =>
      intro c h
      rw [List.dropWhile] at h
      split at h
      · exact ih c h
      · rename_i hp
        simp only [List.head?_cons, Option.some.injEq] at h
        subst h
        simpa using hp

/-- A stripped string never ends in whitespace. -/
theorem pyStrip_getLast_not_space (l : List Char) (c : Char)
    (h : (pyStrip l).getLast? = some c) : isPySpace c = false := by
  unfold pyStrip at h
  rw [List.getLast?_reverse] at h
  exact head?_dropWhile_false _ _ _ h

/-- `rstrip` is the identity when the last character is not removable. -/
theorem rstripSet_eq_self (p : Char → Bool) (l : List Char)
    (h : ∀ c, l.getLast? = some c → p c = false) : rstripSet p l = l := by
  unfold rstripSet
  have : l.reverse.dropWhile p = l.reverse := by
    cases hr : l.reverse with
    | nil => simp
    | cons d rest =>
        rw [List.dropWhile_cons]
        have hd : l.getLast? = some d := by
          rw [List.getLast?_eq_head?_reverse, hr, List.head?_cons]
        rw [h d hd]
        simp
  rw [this, List.reverse_reverse]

/-- Book-name normalisation removes every dot. -/
theorem dot_not_mem_normalizeBook (raw : List Char) : '.' ∉ normalizeBook raw := by
  intro h
  have h1 := mem_pyStrip _ _ h
  rcases mem_collapseWsGo _ _ _ h1 with h2 | h2
  · exact absurd h2 (by decide)
  · exact absurd (List.mem_filter.mp h2).2 (by decide)

/-- The `rstrip(" .")` retry inside `_resolve_book` is dead code: the
normalised key has no dots and no trailing space, so resolution is
exactly one lookup of the normalised string. -/
theorem resolveBook_eq_lookup (raw : List Char) :
    resolveBook raw = abbrevLookup (String.mk (normalizeBook raw)) := by
  unfold resolveBook
  have hstrip : rstripSet (fun c => c = ' ' || c = '.') (normalizeBook raw) =
      normalizeBook raw := by
    apply rstripSet_eq_self
    intro c hc
    have hsp := pyStrip_getLast_not_space
      (collapseWsGo ((stSub (lowerList raw)).filter (· ≠ '.')) false) c hc
    have hdot : c ≠ '.' := fun he =>
      dot_not_mem_normalizeBook raw (he ▸ List.mem_of_mem_getLast? hc)
    have hspace : c ≠ ' ' := fun he => by
      rw [he] at hsp
      exact absurd hsp (by decide)
    simp [hdot, hspace]
  simp only []
  rw [hstrip]
  cases abbrevLookup (String.mk (normalizeBook raw)) <;> simp

/-- `roman_to_int` rejects a token that is empty after upper-casing and
stripping, or still holds a non-Roman character. -/
theorem romanToInt_none (s : List Char)
    (h : pyStrip (upperList s) = [] ∨
      ∃ c ∈ pyStrip (upperList s), (romanVal c).isSome = false) :
    romanToInt s = none := by
  unfold romanToInt
  rw [if_pos]
  rcases h with h | ⟨c, hc, hv⟩
  · simp [h]
  · apply Bool.or_eq_true_iff.mpr
    right
    simp only [Bool.not_eq_true']
    apply List.all_eq_false.mpr
    exact ⟨c, hc, by simp [hv]⟩

/-- The reconstruction loop does not emit a sentence at a boundary whose
preceding word is a known abbreviation; the buffer keeps accumulating
(the whitespace consumed by the split is not restored). -/
theorem sentGo_no_break (chunk punct : List Char) (rest : List (List Char))
    (buf : List Char)
    (h : abbrevEndings.contains (lastWordOf (buf ++ chunk ++ punct)) = true) :
    sentGo (chunk :: punct :: rest) buf = sentGo rest (buf ++ chunk ++ punct) := by
  rw [sentGo]
  rw [if_neg]
  simp only [Bool.and_eq_true, not_and, Bool.not_eq_true', ne_eq]
  intro _
  intro hf
  rw [h] at hf
  cases hf

/-! ## The resolver as the specification words it (for comparison) -/

/-- Leading St/Saint removal as § 4.1 of the specification words it:
remove a leading `"st"` (with optional dot) or `"saint"` token followed
by whitespace.  This follows the spec text, not the source, and exists
only to compare with the behaviour of `stSub`. -/
def specStripStSaint (l : List Char) : List Char :=
  match l with
  | 's' :: 'a' :: 'i' :: 'n' :: 't' :: rest =>
      if (rest.takeWhile isPySpace).length ≥ 1 then rest.dropWhile isPySpace else l
  | 's' :: 't' :: '.' :: rest =>
      if (rest.takeWhile isPySpace).length ≥ 1 then rest.dropWhile isPySpace else l
  | 's' :: 't' :: rest =>
      if (rest.takeWhile isPySpace).length ≥ 1 then rest.dropWhile isPySpace else l
  | _ => l

/-- Book resolution as § 4.1 of the specification describes it: lower-case,
strip a leading St/Saint token, remove dots, collapse whitespace, trim;
exact registry lookup; on failure, when the string begins with a digit
immediately followed by a letter, insert one space after the digit and
retry once.  This follows the spec's words, not the source, and exists
only to compare with `resolveBook`. -/
def resolveBookSpec (raw : List Char) : Option Book :=
  let s := pyStrip (collapseWsGo ((specStripStSaint (lowerList raw)).filter (· ≠ '.')) false)
  match abbrevLookup (String.mk s) with
  | some b => some b
  | none =>
      match s with
      | d :: c :: rest =>
          if d.isDigit ∧ c.isAlpha then abbrevLookup (String.mk (d :: ' ' :: c :: rest))
          else none
      | _ => none

/-! ## Concrete inputs used by the claims -/

/-- Join sentences with single spaces (how the example paragraphs below
are laid out as one flat text). -/
def joinSp (l : List (List Char)) : List Char := (l.intersperse [' ']).flatten

/-- Twenty pairwise-distinct sentences, each at least 10 characters. -/
def sentsTwenty : List (List Char) :=
  (["Sentence 00.", "Sentence 01.", "Sentence 02.", "Sentence 03.", "Sentence 04.",
    "Sentence 05.", "Sentence 06.", "Sentence 07.", "Sentence 08.", "Sentence 09.",
    "Sentence 10.", "Sentence 11.", "Sentence 12.", "Sentence 13.", "Sentence 14.",
    "Sentence 15.", "Sentence 16.", "Sentence 17.", "Sentence 18.", "Sentence 19."] :
    List String).map String.data

/-- A single 20-sentence paragraph. -/
def textTwenty : List Char := joinSp sentsTwenty

/-- An offset strictly inside sentence index 15 of `textTwenty`. -/
def citeOffTwenty : Nat := (joinSp (sentsTwenty.take 15)).length + 3

/-- Twelve sentences where the last repeats sentence index 9 verbatim. -/
def sentsTwelve : List (List Char) :=
  (["Sentence 00.", "Sentence 01.", "Sentence 02.", "Sentence 03.", "Sentence 04.",
    "Sentence 05.", "Sentence 06.", "Sentence 07.", "Sentence 08.", "Sentence 09.",
    "Sentence 10.", "Sentence 09."] : List String).map String.data

/-- A single 12-sentence paragraph with a duplicated sentence text. -/
def textTwelve : List Char := joinSp sentsTwelve

/-- A document whose root has a suppressed `<head>Title</head>` child
immediately followed by the prose tail `"Next line."`. -/
def headDoc : XmlElem :=
  .mk "div" [] [.mk "head" "Title".data [] "Next line.".data] []

/-! ## Claims -/

/-- C3, counterexample.  The claim says `resolve` strips a Saint prefix
and retries a digit-glued name with a space inserted; on `"Saint John"`
and `"3ezra"` the source's `_resolve_book` returns `None` although the
spec-described resolver finds John and 1 Esdras (the source regex
`\bst(?:\.?\s+|aint\s+)` requires a literal `st` before `aint`, so it
never strips `Saint`, and `_resolve_book` has no digit retry — that
retry lives only in `parse_thml._resolve_book_name`). -/
theorem resolve_book_counterexample :
    resolveBook "Saint John".data = none ∧
    resolveBookSpec "Saint John".data =
      some ⟨"John", "john", 59, 21, ["john", "joh", "jhn", "jn"]⟩ ∧
    resolveBook "3ezra".data = none ∧
    resolveBookSpec "3ezra".data =
      some ⟨"1 Esdras", "1-esdras", 54, 9, ["1 esd", "1esd", "i esd", "3 ezra"]⟩ := by
  refine ⟨by decide, by decide, by decide, by decide⟩

/-- C3, amended.  `_resolve_book` lower-cases, removes `st `/`st. ` token
occurrences (but not `saint`), removes dots, collapses whitespace, trims,
and then performs exactly one registry lookup of the normalised string
(the `rstrip(" .")` retry is dead code and there is no digit-space
retry); `None` is returned when nothing matches. -/
theorem resolve_book_exact_lookup :
    (∀ raw, resolveBook raw = abbrevLookup (String.mk (normalizeBook raw))) ∧
    resolveBook "St. John".data =
      some ⟨"John", "john", 59, 21, ["john", "joh", "jhn", "jn"]⟩ ∧
    resolveBook "1 Cor.".data =
      some ⟨"1 Corinthians", "1-corinthians", 62, 16, ["1 cor", "1cor", "i cor", "1 co", "1co"]⟩ ∧
    resolveBook "Saint John".data = none ∧
    resolveBook "3ezra".data = none ∧
    resolveBook "Nonsuch".data = none :=
  ⟨resolveBook_eq_lookup, by decide, by decide, by decide, by decide, by decide⟩

/-- C6.  The plain-text matcher produces no record (and, being a total
function, raises nothing) for a match with no chapter group, and for a
match whose resolved chapter falls outside `1..book.chapters`. -/
theorem matcher_discard_rules :
    (∀ rb rv, processMatch rb none rv = none) ∧
    (∀ rb rc rv b n, resolveBook rb = some b → chapterValue rc = some n →
      (n < 1 ∨ (b.chapters : Int) < n) → processMatch rb (some rc) rv = none) :=
  ⟨processMatch_no_chapter, processMatch_out_of_range⟩

/-- C6, witness: `"Rom. 99"` resolves to Romans (16 chapters) with
chapter 99 and is discarded. -/
theorem matcher_discard_rules_witness :
    processMatch "Rom".data (some "99".data) none = none :=
  matcher_discard_rules.2 "Rom".data "99".data none
    ⟨"Romans", "romans", 61, 16, ["rom", "ro", "rm"]⟩ 99
    (by decide) (by decide) (by decide)

/-- C7.  Verse-field parsing: `verse_start` is the first digit run,
`verse_end` the last digit run only when it differs from the first,
`(none, none)` when there is no digit run; in particular `"13-13"`,
`"13-17"` and `"13, 14, 15"` parse as stated. -/
theorem verse_field_parsing :
    parseVerseField (some "13-13".data) = (some 13, none) ∧
    parseVerseField (some "13-17".data) = (some 13, some 17) ∧
    parseVerseField (some "13, 14, 15".data) = (some 13, some 15) ∧
    (∀ s, digitRunsInt s = [] → parseVerseField (some s) = (none, none)) ∧
    (∀ s n rest, digitRunsInt s = n :: rest →
      parseVerseField (some s) =
        (some n,
         if (n :: rest).getLastD n ≠ n then some ((n :: rest).getLastD n) else none)) := by
  refine ⟨by decide, by decide, by decide, ?_, ?_⟩
  · intro s h
    by_cases he : s = []
    · simp [he, parseVerseField]
    · simp [parseVerseField, if_neg he, h]
  · intro s n rest h
    by_cases he : s = []
    · rw [he] at h
      exact absurd h.symm (List.cons_ne_nil n rest)
    · simp only [parseVerseField, if_neg he, h]

/-- C7, witness: a field with no digit run parses to `(none, none)`. -/
theorem verse_field_parsing_witness :
    parseVerseField (some "abc".data) = (none, none) :=
  verse_field_parsing.2.2.2.1 "abc".data (by decide)

/-- C9, counterexample.  `" X"` contains a character outside the Roman
symbol set, yet `roman_to_int` strips whitespace first and returns 10
rather than the `None` the claim requires. -/
theorem roman_strip_counterexample :
    (' ' ∈ " X".data) ∧ romanVal ' ' = none ∧ romanToInt " X".data = some 10 := by
  refine ⟨by decide, by decide, by decide⟩

/-- C9, amended.  After upper-casing and stripping surrounding
whitespace, `roman_to_int` returns `None` for an empty remainder or any
remaining character outside `{I,V,X,L,C,D,M}`; and
`XIII = 13`, `viii = 8`, `CL = 150`, `ABC = None`. -/
theorem roman_numeral_parsing :
    (∀ s, (pyStrip (upperList s) = [] ∨
        ∃ c ∈ pyStrip (upperList s), (romanVal c).isSome = false) →
      romanToInt s = none) ∧
    romanToInt "XIII".data = some 13 ∧
    romanToInt "viii".data = some 8 ∧
    romanToInt "CL".data = some 150 ∧
    romanToInt "ABC".data = none :=
  ⟨romanToInt_none, by decide, by decide, by decide, by decide⟩

/-- C9, witness: a non-Roman character yields `None`. -/
theorem roman_numeral_parsing_witness : romanToInt "%".data = none :=
  roman_numeral_parsing.1 "%".data (by decide)

/-- C1, counterexample.  The raw verse field `"17-13"` yields
`verse_end = 13 < 17 = verse_start`, and the structured decoder accepts
`fromChapter = 22` for John although John has only 21 chapters (it
checks only `fromChapter ≥ 1`, never the book's chapter count). -/
theorem verseEnd_order_counterexample :
    parseVerseField (some "17-13".data) = (some 17, some 13) ∧
    (13 : Int) < 17 ∧
    parseParsedAttr "|John|22|1|22|1".data =
      [⟨⟨"John", "john", 59, 21, ["john", "joh", "jhn", "jn"]⟩, 22, some 1, none⟩] ∧
    (⟨"John", "john", 59, 21, ["john", "joh", "jhn", "jn"]⟩ : Book).chapters = 21 := by
  refine ⟨by decide, by decide, by decide, by decide⟩

/-- C1, amended.  A `verse_end`, when present, is always distinct from
`verse_start` (but need not be larger).  A structured-payload record's
chapter is only known to be ≥ 1; a plain-text record's chapter lies
within `1..book.chapters`. -/
theorem citation_field_invariants :
    (∀ ov y, (parseVerseField ov).2 = some y →
      ∃ x, (parseVerseField ov).1 = some x ∧ y ≠ x) ∧
    (∀ p c, c ∈ parseParsedAttr p →
      1 ≤ c.chapter ∧ ∀ y, c.verseEnd = some y → 0 < y ∧ c.verseStart ≠ some y) ∧
    (∀ rb rc rv r, processMatch rb rc rv = some r →
      1 ≤ r.chapter ∧ r.chapter ≤ (r.book.chapters : Int) ∧
        ∀ y, r.verseEnd = some y → ∃ x, r.verseStart = some x ∧ y ≠ x) := by
  refine ⟨parseVerseField_snd, ?_, processMatch_some_spec⟩
  intro p c hc
  rw [parseParsedAttr] at hc
  rcases List.mem_filterMap.mp hc with ⟨seg, _, hseg⟩
  exact segParse_some_spec seg c hseg

/-- C1, witness: the record decoded from `"bible|John|3|16|3|17"` has
chapter ≥ 1 and a positive `verse_end` distinct from `verse_start`. -/
theorem citation_field_invariants_witness :
    1 ≤ (⟨⟨"John", "john", 59, 21, ["john", "joh", "jhn", "jn"]⟩, 3,
          some 16, some 17⟩ : Citation).chapter ∧
    ∀ y, (⟨⟨"John", "john", 59, 21, ["john", "joh", "jhn", "jn"]⟩, 3,
          some 16, some 17⟩ : Citation).verseEnd = some y →
      0 < y ∧ (⟨⟨"John", "john", 59, 21, ["john", "joh", "jhn", "jn"]⟩, 3,
          some 16, some 17⟩ : Citation).verseStart ≠ some y :=
  citation_field_invariants.2.1 "bible|John|3|16|3|17".data _ (by decide)

/-- C2, counterexample.  `"garbage"` in the toChapter position does not
parse as a number, yet the segment is NOT skipped: the decoder never
parses the toChapter field. -/
theorem segment_skip_counterexample :
    pyInt "garbage".data = none ∧
    parseParsedAttr "bible|John|3|16|garbage|17".data =
      [⟨⟨"John", "john", 59, 21, ["john", "joh", "jhn", "jn"]⟩, 3, some 16, some 17⟩] := by
  refine ⟨by decide, by decide⟩

/-- C2, amended.  A segment yields no citation when it does not have
exactly six pipe-delimited fields, when fromChapter, fromVerse or
toVerse fails to parse, or when fromChapter parses below 1 (the
toChapter field is never parsed and cannot cause a skip); and segments
on either side of a semicolon are decoded independently, so a skipped
segment never prevents the others. -/
theorem segment_skip_rules :
    (∀ seg, (pySplitChar '|' (pyStrip seg)).length ≠ 6 → segParse seg = none) ∧
    (∀ seg v bk c1 v1 c2 v2, pySplitChar '|' (pyStrip seg) = [v, bk, c1, v1, c2, v2] →
      (pyInt c1 = none ∨ pyInt v1 = none ∨ pyInt v2 = none ∨
        ∃ n, pyInt c1 = some n ∧ n < 1) →
      segParse seg = none) ∧
    (∀ a b, parseParsedAttr (a ++ ';' :: b) = parseParsedAttr a ++ parseParsedAttr b) :=
  ⟨segParse_wrong_fields, segParse_numeric_skip, parseParsedAttr_append⟩

/-- C2, witness: a two-field segment is skipped. -/
theorem segment_skip_rules_witness : segParse "a|b".data = none :=
  segment_skip_rules.1 "a|b".data (by decide)

/-- C4.  The linearizer walk emits nothing from inside a suppressed
subtree; a content-suppressing node contributes exactly its tail when
its parent is not suppressed; and the document
`<div><head>Title</head>Next line.</div>` linearizes to a text that
contains "Next line." and not "Title". -/
theorem linearizer_suppression :
    (∀ el st, walkSt el true st = st) ∧
    (∀ el st, skipContentTags.contains el.tag = true →
      walkSt el false st = { st with acc := st.acc ++ el.tail }) ∧
    linearize headDoc = "Next line.".data ∧
    containsSub (linearize headDoc) "Next line.".data = true ∧
    containsSub (linearize headDoc) "Title".data = false := by
  refine ⟨walkSt_skip, ?_, by decide, by decide, by decide⟩
  intro el st h
  cases el with
  | mk tag text children tail =>
      simp only [XmlElem.tag] at h
      have h2 : tag ∈ skipContentTags := by simpa using h
      rw [walkSt]
      simp [h2, walkList_skip children st, XmlElem.tail]

/-- C4, witness: a suppressed `<note>` with text `"x"` and tail `"y"`
contributes exactly `"y"`. -/
theorem linearizer_suppression_witness :
    walkSt (XmlElem.mk "note" "x".data [] "y".data) false ⟨[], []⟩ =
      ⟨"y".data, []⟩ :=
  linearizer_suppression.2.1 (XmlElem.mk "note" "x".data [] "y".data) ⟨[], []⟩ (by decide)

/-- C8, counterexample.  The splitter does yield two sentences, but the
first is `"He wrote to Mr.Smith."` — the whitespace consumed by the
split regex is not restored when the fragments are rejoined — so the
claimed output `["He wrote to Mr. Smith.", "It was late."]` is wrong. -/
theorem sentence_join_counterexample :
    splitSentences "He wrote to Mr. Smith. It was late.".data ≠
      ["He wrote to Mr. Smith.".data, "It was late.".data] := by decide

/-- C8, amended.  A candidate boundary whose preceding word is a known
abbreviation is not a break (the buffer keeps accumulating, without the
consumed whitespace), and the example text segments into exactly the two
sentences `"He wrote to Mr.Smith."` and `"It was late."`. -/
theorem sentence_abbreviation_no_break :
    splitSentences "He wrote to Mr. Smith. It was late.".data =
      ["He wrote to Mr.Smith.".data, "It was late.".data] ∧
    (∀ chunk punct rest buf,
      abbrevEndings.contains (lastWordOf (buf ++ chunk ++ punct)) = true →
      sentGo (chunk :: punct :: rest) buf = sentGo rest (buf ++ chunk ++ punct)) :=
  ⟨by decide, sentGo_no_break⟩

/-- C8, witness: the boundary after `"Mr."` (last word `mr`) does not
break. -/
theorem sentence_abbreviation_no_break_witness :
    sentGo ["He wrote to Mr".data, ".".data] [] =
      sentGo [] ([] ++ "He wrote to Mr".data ++ ".".data) :=
  sentence_abbreviation_no_break.2 "He wrote to Mr".data ".".data [] [] (by decide)

/-- C10.  Paragraph bounds always bracket the citation offset and stay
inside the text; consequently, in the whole-paragraph branch the
returned passage window equals the paragraph bounds and contains the
citation offset. -/
theorem paragraph_bounds_contain_offset (t : List Char) (off : Nat)
    (h : off ≤ t.length) :
    (findParagraphBounds t off).1 ≤ off ∧
    off ≤ (findParagraphBounds t off).2 ∧
    (findParagraphBounds t off).2 ≤ t.length ∧
    ((splitSentences (paragraphSlice t off)).length ≤ maxSentences →
      extractPassageOffsets t off = findParagraphBounds t off ∧
      (extractPassageOffsets t off).1 ≤ off ∧ off ≤ (extractPassageOffsets t off).2) := by
  obtain ⟨h1, h2, h3⟩ := findParagraphBounds_spec t off h
  refine ⟨h1, h2, h3, fun hle => ?_⟩
  have he := extractPassageOffsets_whole_paragraph t off hle
  rw [he]
  exact ⟨rfl, h1, h2⟩

/-- C10, witness: bounds of a short one-paragraph text at offset 4. -/
theorem paragraph_bounds_contain_offset_witness :
    (findParagraphBounds "Short text.".data 4).1 ≤ 4 :=
  (paragraph_bounds_contain_offset "Short text.".data 4 (by decide)).1

set_option maxRecDepth 40000 in
/-- C5, counterexample.  On a 12-sentence paragraph whose last sentence
repeats sentence 9 verbatim, the extractor chooses the first 10
sentences as its window but locates the window end with `rfind`, which
finds the duplicate at position 11 — the returned offsets are the whole
12-sentence paragraph, not a span of exactly 10 consecutive sentences. -/
theorem passage_window_counterexample :
    (splitSentences textTwelve).length = 12 ∧
    maxSentences < (splitSentences textTwelve).length ∧
    extractWindow textTwelve 0 = sentsTwelve.take 10 ∧
    extractPassageOffsets textTwelve 0 = (0, textTwelve.length) ∧
    (joinSp (sentsTwelve.take 10)).length < textTwelve.length := by
  have hps : paragraphSlice textTwelve 0 = textTwelve := by decide
  have hs : splitSentences textTwelve = sentsTwelve := by decide
  have hpb : findParagraphBounds textTwelve 0 = (0, 155) := by decide
  have h : ¬ (splitSentences (paragraphSlice textTwelve 0)).length ≤ maxSentences := by
    rw [hps, hs]; decide
  have hw : extractWindow textTwelve 0 = sentsTwelve.take 10 := by
    unfold extractWindow
    rw [hps, hs, hpb]
    decide
  refine ⟨by rw [hs]; decide, by rw [hs]; decide, hw, ?_, by decide⟩
  rw [extractPassageOffsets_window_form textTwelve 0 h, hps, hpb, hw]
  decide

set_option maxRecDepth 40000 in
/-- C5, amended.  A paragraph of at most 10 sentences is returned whole;
with more than 10 sentences the chosen index window is exactly 10
consecutive sentences clamped inside the paragraph, and its bounds are
then located by first/last occurrence of the boundary sentences' text
(which matches those sentences only when that text occurs uniquely); for
a 20-distinct-sentence paragraph with the citation in sentence 15, the
returned window is sentences 10 through 19, ending at sentence 19. -/
theorem passage_window_behavior :
    (∀ t off, (splitSentences (paragraphSlice t off)).length ≤ maxSentences →
      extractPassageOffsets t off = findParagraphBounds t off) ∧
    (∀ n idx, maxSentences < n →
      (windowIdx n idx).2 - (windowIdx n idx).1 = maxSentences ∧
      (windowIdx n idx).2 ≤ n) ∧
    splitSentences textTwenty = sentsTwenty ∧
    extractWindow textTwenty citeOffTwenty = sentsTwenty.drop 10 ∧
    extractPassageOffsets textTwenty citeOffTwenty =
      ((joinSp (sentsTwenty.take 10)).length + 1, textTwenty.length) := by
  have hps : paragraphSlice textTwenty citeOffTwenty = textTwenty := by decide
  have hs : splitSentences textTwenty = sentsTwenty := by decide
  have hpb : findParagraphBounds textTwenty citeOffTwenty = (0, 259) := by decide
  have h : ¬ (splitSentences (paragraphSlice textTwenty citeOffTwenty)).length ≤
      maxSentences := by
    rw [hps, hs]; decide
  have hw : extractWindow textTwenty citeOffTwenty = sentsTwenty.drop 10 := by
    unfold extractWindow
    rw [hps, hs, hpb]
    decide
  refine ⟨extractPassageOffsets_whole_paragraph, windowIdx_exact, hs, hw, ?_⟩
  rw [extractPassageOffsets_window_form textTwenty citeOffTwenty h, hps, hpb, hw]
  decide

/-- C5, witness: a one-sentence paragraph is returned whole. -/
theorem passage_window_behavior_witness :
    extractPassageOffsets "One line.".data 2 = findParagraphBounds "One line.".data 2 :=
  passage_window_behavior.1 "One line.".data 2 (by decide)

end Patristics

